import Mathlib

/-!
Verification of the smallapi web framework (Go) against its natural-language
specification.  The Go sources are shallowly embedded: strings are Lean
`String`s (byte-level operations are modelled on the character list `data`,
which is faithful here because every delimiter involved is a 1-byte ASCII
character), Go maps with string keys are association lists with
replace-on-insert, fallible/panicking code returns `Except`, and machine
integers are `Nat`/`Int` with explicit `% 256`/`% 2^32` where Go truncates.
-/

namespace SmallAPI

/-- Association-list lookup, modelling Go `m[k]` (comma-ok form: `none` when
absent). -/
def lookupA {α : Type _} : List (String × α) → String → Option α
  | [], _ => none
  | (k, v) :: rest, key => if k = key then some v else lookupA rest key

/-- Association-list insert with replacement, modelling Go `m[k] = v`. -/
def setA {α : Type _} : List (String × α) → String → α → List (String × α)
  | [], key, value => [(key, value)]
  | (k, v) :: rest, key, value =>
    if k = key then (key, value) :: rest else (k, v) :: setA rest key value

/-- Go `strings.Trim(path, "/")`: remove all leading and trailing `'/'`
characters. -/
def trimSlash (cs : List Char) : List Char :=
  ((cs.dropWhile (fun c => c = '/')).reverse.dropWhile (fun c => c = '/')).reverse

/-- Go `strings.Split(s, "/")`: split at every `'/'`; the empty string yields
the singleton list of one empty piece. -/
def splitSlash : List Char → List (List Char)
  | [] => [[]]
  | c :: rest =>
    if c = '/' then [] :: splitSlash rest
    else
      match splitSlash rest with
      | [] => [[c]]
      | s :: ss => (c :: s) :: ss

/-- `strings.Split(strings.Trim(path, "/"), "/")`, the path decomposition used
by both `compilePattern` and `Router.Match` in the Go source. -/
def splitPath (path : String) : List String :=
  (splitSlash (trimSlash path.data)).map String.mk

/-- One part of a route pattern: the Go `Segment` struct with its
`IsParam`/`Name`/`Value` fields, rendered as a sum. -/
inductive Segment where
  | Literal : String → Segment
  | Param : String → Segment
deriving DecidableEq, Repr

/-- Compilation of one path segment, from the loop body of the Go
`compilePattern`: `strings.HasPrefix(segment, ":")` is "first character is
`':'`" and `segment[1:]` drops that character. -/
def segOfStr (seg : String) : Segment :=
  if seg.data.head? = some ':' then Segment.Param (String.mk seg.data.tail)
  else Segment.Literal seg

/-- Go `Router.compilePattern`: split the trimmed template on `'/'` and
translate each piece. -/
def compilePattern (path : String) : List Segment :=
  (splitPath path).map segOfStr

/-- Go `Route` struct (`Method`, `Path`, `Handler`, `Pattern`); the handler is
an abstract value of type `α`. -/
structure Route (α : Type _) where
  Method : String
  Path : String
  Handler : α
  Pattern : List Segment

/-- Go `Router` struct: the ordered route list. -/
structure Router (α : Type _) where
  routes : List (Route α)

/-- Go `NewRouter`. -/
def NewRouter (α : Type _) : Router α := ⟨[]⟩

/-- Go `Router.Add`: compile the template and append the route. -/
def Router.Add {α : Type _} (r : Router α) (method path : String) (handler : α) :
    Router α :=
  ⟨r.routes ++ [⟨method, path, handler, compilePattern path⟩]⟩

/-- A router built from a sequence of `Add` registrations, in order. -/
def mkRouter {α : Type _} (regs : List (String × String × α)) : Router α :=
  regs.foldl (fun r t => r.Add t.1 t.2.1 t.2.2) (NewRouter α)

/-- The segment loop of Go `Router.matchPattern`: parameters capture, literals
must be equal, first mismatch aborts. -/
def matchSegs : List Segment → List String → List (String × String) →
    Option (List (String × String))
  | [], [], params => some params
  | Segment.Param name :: pat, s :: segs, params =>
    matchSegs pat segs (setA params name s)
  | Segment.Literal v :: pat, s :: segs, params =>
    if v = s then matchSegs pat segs params else none
  | _, _, _ => none

/-- Go `Router.matchPattern`: length check, then the segment loop. -/
def matchPat (pattern : List Segment) (pathSegments : List String) :
    Option (List (String × String)) :=
  if pattern.length = pathSegments.length then matchSegs pattern pathSegments []
  else none

/-- The scan loop of Go `Router.Match`: first route whose method equals the
request method and whose pattern matches wins. -/
def findRoute {α : Type _} : List (Route α) → String → List String →
    Option (α × List (String × String))
  | [], _, _ => none
  | rt :: rest, method, segs =>
    if rt.Method = method then
      match matchPat rt.Pattern segs with
      | some params => some (rt.Handler, params)
      | none => findRoute rest method segs
    else findRoute rest method segs

/-- Go `Router.Match`; `none` models the `(nil, nil)` return. -/
def Router.Match {α : Type _} (r : Router α) (method path : String) :
    Option (α × List (String × String)) :=
  findRoute r.routes method (splitPath path)

/-- Specification-level segment admissibility: a parameter segment accepts any
path segment, a literal only its own text. -/
def segMatches : Segment → String → Prop
  | Segment.Param _, _ => True
  | Segment.Literal v, s => v = s

/-- Specification-level route admissibility: exact (case-sensitive) method
equality plus segment-wise admissibility (which forces equal segment counts). -/
def routeMatches {α : Type _} (rt : Route α) (method : String)
    (segs : List String) : Prop :=
  rt.Method = method ∧ List.Forall₂ segMatches rt.Pattern segs

/-- The parameter bindings a successful match produces: each parameter segment
inserts its name bound to the corresponding path segment text, left to right. -/
def bindAux : List Segment → List String → List (String × String) →
    List (String × String)
  | Segment.Param name :: pat, s :: segs, params =>
    bindAux pat segs (setA params name s)
  | Segment.Literal _ :: pat, _ :: segs, params => bindAux pat segs params
  | _, _, params => params

/-- Parameter bindings of a pattern against a path, starting from the empty
map. -/
def bindParams (pattern : List Segment) (segs : List String) :
    List (String × String) :=
  bindAux pattern segs []

/-- The Go `Context`, restricted to the request/response state the claims are
about.  `method`, `contentLength`, `requestBody` and `path` come from the
inbound `*http.Request` (Go's `ContentLength` is an `int64`, hence `Int`);
`respBody` is the ordered list of body writes to the `ResponseWriter`; the
conditional `WriteHeader(statusCode)` call of the senders is represented by
the `statusCode` field itself.  Query/form parsing and the session reference
of `NewContext` are omitted: no claim touches them. -/
structure Ctx where
  method : String
  contentLength : Int
  requestBody : String
  path : String
  params : List (String × String)
  dataMap : List (String × String)
  written : Bool
  statusCode : Nat
  headers : List (String × String)
  cookies : List (String × String)
  respBody : List String
deriving DecidableEq, Repr

/-- Go `NewContext`: fresh per-request context, `written` is the zero value
`false` and `statusCode` is initialised to 200. -/
def newContext (method : String) (contentLength : Int)
    (requestBody path : String) : Ctx :=
  { method := method, contentLength := contentLength,
    requestBody := requestBody, path := path, params := [], dataMap := [],
    written := false, statusCode := 200, headers := [], cookies := [],
    respBody := [] }

/-- Go `Context.Status`. -/
def Ctx.Status (c : Ctx) (code : Nat) : Ctx := { c with statusCode := code }

/-- Go `Context.Header` (`http.Header.Set` replaces any previous value). -/
def Ctx.setHeader (c : Ctx) (key value : String) : Ctx :=
  { c with headers := setA c.headers key value }

/-- Go `Context.Cookie` (`http.SetCookie`). -/
def Ctx.setCookie (c : Ctx) (name value : String) : Ctx :=
  { c with cookies := setA c.cookies name value }

/-- Go `Context.Set`: the per-request key-value bag. -/
def Ctx.setData (c : Ctx) (key value : String) : Ctx :=
  { c with dataMap := setA c.dataMap key value }

/-- Go `Context.sendJSON`: set `Content-Type`, mark `written`, emit the
serialised value (serialisation itself is abstracted into the argument). -/
def Ctx.sendJSON (c : Ctx) (v : String) : Ctx :=
  let c1 := c.setHeader "Content-Type" "application/json"
  { c1 with written := true, respBody := c1.respBody ++ [v] }

/-- Go `Context.JSON`, the dual-mode call: response emission when the method
is GET or `ContentLength == 0`, otherwise request-body decoding into the
argument.  The second component is the value decoded into `v` (`none` in
response mode); decoding is abstracted as returning the raw request body. -/
def Ctx.JSON (c : Ctx) (v : String) : Ctx × Option String :=
  if c.method = "GET" ∨ c.contentLength = 0 then (c.sendJSON v, none)
  else (c, some c.requestBody)

/-- Go `Context.String` (named `StringResp` here because the Go method name
collides with the `String` type in scope). -/
def Ctx.StringResp (c : Ctx) (text : String) : Ctx :=
  let c1 := c.setHeader "Content-Type" "text/plain"
  { c1 with written := true, respBody := c1.respBody ++ [text] }

/-- Go `Context.HTML`. -/
def Ctx.HTML (c : Ctx) (html : String) : Ctx :=
  let c1 := c.setHeader "Content-Type" "text/html"
  { c1 with written := true, respBody := c1.respBody ++ [html] }

/-- Go `Context.Render` (success path; the template engine's output is
abstracted into the argument — `written` is set before rendering even when
the template later fails). -/
def Ctx.Render (c : Ctx) (output : String) : Ctx :=
  let c1 := c.setHeader "Content-Type" "text/html"
  { c1 with written := true, respBody := c1.respBody ++ [output] }

/-- Go `Context.File`: `http.ServeFile` writes the file (abstracted as the
path), then `written` is set. -/
def Ctx.File (c : Ctx) (filePath : String) : Ctx :=
  { c with written := true, respBody := c.respBody ++ [filePath] }

/-- Go `Context.Redirect`: `http.Redirect` emits the 302 response, then
`written` is set. -/
def Ctx.Redirect (c : Ctx) (url : String) : Ctx :=
  { c with written := true, respBody := c.respBody ++ [url] }

/-- The `Context` operations of the source that touch the context, as a
syntactic algebra (used to state the `written`-flag invariant). -/
inductive CtxOp where
  | status : Nat → CtxOp
  | header : String → String → CtxOp
  | cookie : String → String → CtxOp
  | setData : String → String → CtxOp
  | json : String → CtxOp
  | text : String → CtxOp
  | html : String → CtxOp
  | render : String → CtxOp
  | file : String → CtxOp
  | redirect : String → CtxOp
deriving DecidableEq, Repr

/-- Interpret one context operation by the corresponding source function. -/
def applyOp (c : Ctx) : CtxOp → Ctx
  | CtxOp.status n => c.Status n
  | CtxOp.header k v => c.setHeader k v
  | CtxOp.cookie k v => c.setCookie k v
  | CtxOp.setData k v => c.setData k v
  | CtxOp.json v => (c.JSON v).1
  | CtxOp.text v => c.StringResp v
  | CtxOp.html v => c.HTML v
  | CtxOp.render v => c.Render v
  | CtxOp.file v => c.File v
  | CtxOp.redirect v => c.Redirect v

/-- Run a sequence of context operations left to right. -/
def applyOps (ops : List CtxOp) (c : Ctx) : Ctx := ops.foldl applyOp c

/-- Which operations are response senders for a request with the given method
and content length (`json` sends exactly when `Context.JSON` is in response
mode). -/
def isSender (method : String) (contentLength : Int) : CtxOp → Bool
  | CtxOp.json _ => decide (method = "GET" ∨ contentLength = 0)
  | CtxOp.text _ => true
  | CtxOp.html _ => true
  | CtxOp.render _ => true
  | CtxOp.file _ => true
  | CtxOp.redirect _ => true
  | _ => false

/-- The middleware loop of `App.ServeHTTP` (lines 117–121), with panics made
explicit: a middleware either panics (`Except.error`, carrying the context
state at the fault and the panic message) or returns the context and its
continue/stop boolean.  The loop stops at the first `false` and propagates
panics (no recovery is installed around this loop in the source). -/
def runMws {σ : Type _} :
    List (σ → Except (σ × String) (σ × Bool)) → σ →
      Except (σ × String) (σ × Bool)
  | [], s => Except.ok (s, true)
  | m :: rest, s =>
    match m s with
    | Except.error e => Except.error e
    | Except.ok (s1, cont) =>
      if cont then runMws rest s1 else Except.ok (s1, false)

/-- JSON body of the 404 response in `App.ServeHTTP`. -/
def jsonNotFound : String := "Not Found"

/-- JSON body of the recovery response in `App.ServeHTTP`. -/
def jsonErrISE : String := "Internal Server Error"

/-- Go `App.ServeHTTP` (static-file serving elided: the model corresponds to
an app with no `Static` registrations, which no claim involves).  Middleware
run first with no recovery around them; then the router is consulted with the
request method and path; a missing route yields `Status(404).JSON`; the
handler runs under the deferred `recover`, which, on a panic, leaves the
context as the handler left it when `written` is set and otherwise calls
`Status(500).JSON` on it. -/
def serveHTTP (mws : List (Ctx → Except (Ctx × String) (Ctx × Bool)))
    (router : Router (Ctx → Except (Ctx × String) Ctx)) (c : Ctx) :
    Except (Ctx × String) Ctx :=
  match runMws mws c with
  | Except.error e => Except.error e
  | Except.ok (c1, false) => Except.ok c1
  | Except.ok (c1, true) =>
    match router.Match c.method c.path with
    | none => Except.ok ((c1.Status 404).JSON jsonNotFound).1
    | some (h, params) =>
      match h { c1 with params := params } with
      | Except.ok c2 => Except.ok c2
      | Except.error (c2, _msg) =>
        Except.ok (if c2.written then c2 else ((c2.Status 500).JSON jsonErrISE).1)

/-- Lift a pure (non-panicking) middleware into the panic-aware type. -/
def pureMw {σ : Type _} (f : σ → σ × Bool) :
    σ → Except (σ × String) (σ × Bool) :=
  fun s => Except.ok (f s)

/-- Instrument pure middlewares with an execution trace: middleware number
`k`, `k+1`, … append their index to the log as they run. -/
def traceMws {σ : Type _} (k : Nat) :
    List (σ → σ × Bool) →
      List ((σ × List Nat) → Except ((σ × List Nat) × String) ((σ × List Nat) × Bool))
  | [] => []
  | f :: fs =>
    (fun p => Except.ok (((f p.1).1, p.2 ++ [k]), (f p.1).2)) :: traceMws (k + 1) fs

/-- Index of the first middleware that returns `false` when the chain runs
sequentially from state `s` (specification-side description). -/
def firstFalse {σ : Type _} : List (σ → σ × Bool) → σ → Option Nat
  | [], _ => none
  | f :: fs, s =>
    if (f s).2 then (firstFalse fs (f s).1).map (fun n => n + 1) else some 0

/-- The state after threading it through every middleware in the list. -/
def chainMws {σ : Type _} (ms : List (σ → σ × Bool)) (s : σ) : σ :=
  ms.foldl (fun s f => (f s).1) s

/-- Consecutive middleware indices starting at `k`. -/
def idsFrom (k n : Nat) : List Nat := (List.range n).map (fun i => k + i)

/-- Per-client counter of the Go `RateLimit` middleware. -/
structure RLClient where
  requests : Nat
  reset : Nat
deriving DecidableEq, Repr

/-- JSON body of the 429 response in `RateLimit`. -/
def jsonErrRate : String := "Rate limit exceeded"

/-- One invocation of the Go `RateLimit(requestsPerMinute)` closure for a
request from `ip` at unix time `now` (seconds; `time.Minute` is 60): expired
entries are deleted (`now.After(reset)` is strict), the client entry is
fetched or created with `reset = now + 60`, a full counter yields
`Status(429).JSON` and `false`, otherwise the counter is incremented, the
three `X-RateLimit-*` headers are set and `true` is returned. -/
def rateLimitStep (requestsPerMinute : Nat) (clients : List (String × RLClient))
    (ip : String) (now : Nat) (c : Ctx) :
    List (String × RLClient) × Ctx × Bool :=
  let cleaned := clients.filter (fun e => decide (now ≤ e.2.reset))
  let pair : RLClient × List (String × RLClient) :=
    match lookupA cleaned ip with
    | some cl => (cl, cleaned)
    | none => (⟨0, now + 60⟩, cleaned ++ [(ip, ⟨0, now + 60⟩)])
  let cl := pair.1
  if cl.requests ≥ requestsPerMinute then
    (pair.2, ((c.Status 429).JSON jsonErrRate).1, false)
  else
    let cl2 : RLClient := ⟨cl.requests + 1, cl.reset⟩
    let c1 := c.setHeader "X-RateLimit-Limit" (toString requestsPerMinute)
    let c2 := c1.setHeader "X-RateLimit-Remaining"
      (toString (requestsPerMinute - cl2.requests))
    let c3 := c2.setHeader "X-RateLimit-Reset" (toString cl2.reset)
    (setA pair.2 ip cl2, c3, true)

/-- A sequence of requests from one client `ip` at the given times, each with
a fresh copy of context `c0`; returns the final counter table and the
middleware's boolean verdict for each request in order. -/
def rateLimitRun (n : Nat) (clients : List (String × RLClient)) (ip : String)
    (c0 : Ctx) : List Nat → List (String × RLClient) × List Bool
  | [] => (clients, [])
  | t :: ts =>
    let step := rateLimitStep n clients ip t c0
    let rest := rateLimitRun n step.1 ip c0 ts
    (rest.1, step.2.2 :: rest.2)

/-- Go `Session`: id plus key-value bag (the `sync.RWMutex` and `maxAge`
fields play no role in the claims). -/
structure Session (α : Type _) where
  id : String
  data : List (String × α)

/-- Go `Session.Set`. -/
def Session.Set {α : Type _} (s : Session α) (key : String) (value : α) :
    Session α :=
  { s with data := setA s.data key value }

/-- Go `Session.Get` (`none` models the `nil` returned for an absent key). -/
def Session.Get {α : Type _} (s : Session α) (key : String) : Option α :=
  lookupA s.data key

/-- Go `SessionManager`: the token-indexed session table. -/
structure SessionManager (α : Type _) where
  sessions : List (String × Session α)

/-- Go `SessionManager.GetSession`: `cookie` is the `session_id` request
cookie (`none` when absent), `freshID` the token `generateSessionID` would
produce for this request.  An absent or empty cookie selects the fresh token
(and writes it back as a cookie, elided here); the bag for the selected token
is looked up and lazily created empty. -/
def GetSession {α : Type _} (sm : SessionManager α) (cookie : Option String)
    (freshID : String) : SessionManager α × Session α :=
  let sessionID :=
    match cookie with
    | none => freshID
    | some v => if v = "" then freshID else v
  match lookupA sm.sessions sessionID with
  | some session => (sm, session)
  | none =>
    let session : Session α := ⟨sessionID, []⟩
    (⟨setA sm.sessions sessionID session⟩, session)

/-- 32-bit left rotation (operands are 32-bit values as `Nat`). -/
def rotl32 (n x : Nat) : Nat := ((x <<< n) ||| (x >>> (32 - n))) % 4294967296

/-- Big-endian 32-bit words from a byte list (Go `sha1` block handling). -/
def toWords32 : List Nat → List Nat
  | b0 :: b1 :: b2 :: b3 :: rest =>
    (b0 * 16777216 + b1 * 65536 + b2 * 256 + b3) :: toWords32 rest
  | _ => []

/-- The `k` low-order bytes of `n`, big-endian. -/
def bytesBE : Nat → Nat → List Nat
  | 0, _ => []
  | k + 1, n => ((n >>> (8 * k)) % 256) :: bytesBE k n

/-- SHA-1 padding: `0x80`, zeros to 56 mod 64, then the bit length as a
64-bit big-endian integer. -/
def sha1pad (msg : List Nat) : List Nat :=
  let z := (120 - ((msg.length + 1) % 64)) % 64
  msg ++ [128] ++ List.replicate z 0 ++ bytesBE 8 (msg.length * 8)

/-- SHA-1 round function. -/
def sha1f (i b c d : Nat) : Nat :=
  if i < 20 then (b &&& c) ||| ((b ^^^ 4294967295) &&& d)
  else if i < 40 then b ^^^ c ^^^ d
  else if i < 60 then (b &&& c) ||| (b &&& d) ||| (c &&& d)
  else b ^^^ c ^^^ d

/-- SHA-1 round constants. -/
def sha1k (i : Nat) : Nat :=
  if i < 20 then 0x5A827999
  else if i < 40 then 0x6ED9EBA1
  else if i < 60 then 0x8F1BBCDC
  else 0xCA62C1D6

/-- SHA-1 message schedule: 80 words from the 16 block words. -/
def sha1w (ws : List Nat) : List Nat :=
  (List.range 80).foldl (fun acc i =>
    if i < 16 then acc ++ [ws.getD i 0]
    else acc ++ [rotl32 1 ((acc.getD (i - 3) 0) ^^^ (acc.getD (i - 8) 0) ^^^
      (acc.getD (i - 14) 0) ^^^ (acc.getD (i - 16) 0))]) []

/-- SHA-1 compression of one 16-word block into the running state. -/
def sha1compress (h : Nat × Nat × Nat × Nat × Nat) (ws : List Nat) :
    Nat × Nat × Nat × Nat × Nat :=
  let w := sha1w ws
  let s := (List.range 80).foldl (fun s i =>
    let temp := (rotl32 5 s.1 + sha1f i s.2.1 s.2.2.1 s.2.2.2.1 + s.2.2.2.2 +
      sha1k i + w.getD i 0) % 4294967296
    (temp, s.1, rotl32 30 s.2.1, s.2.2.1, s.2.2.2.1)) h
  ((h.1 + s.1) % 4294967296, (h.2.1 + s.2.1) % 4294967296,
   (h.2.2.1 + s.2.2.1) % 4294967296, (h.2.2.2.1 + s.2.2.2.1) % 4294967296,
   (h.2.2.2.2 + s.2.2.2.2) % 4294967296)

/-- Fold the compression over consecutive 16-word blocks. -/
def sha1blocks : Nat × Nat × Nat × Nat × Nat → List Nat →
    Nat × Nat × Nat × Nat × Nat
  | h, w0 :: w1 :: w2 :: w3 :: w4 :: w5 :: w6 :: w7 :: w8 :: w9 :: w10 ::
      w11 :: w12 :: w13 :: w14 :: w15 :: rest =>
    sha1blocks (sha1compress h
      [w0, w1, w2, w3, w4, w5, w6, w7, w8, w9, w10, w11, w12, w13, w14, w15]) rest
  | h, _ => h

/-- SHA-1 digest (20 bytes) of a byte sequence, as Go `crypto/sha1`
computes for the inputs at hand. -/
def sha1sum (msg : List Nat) : List Nat :=
  let h := sha1blocks (0x67452301, 0xEFCDAB89, 0x98BADCFE, 0x10325476, 0xC3D2E1F0)
    (toWords32 (sha1pad msg))
  bytesBE 4 h.1 ++ bytesBE 4 h.2.1 ++ bytesBE 4 h.2.2.1 ++ bytesBE 4 h.2.2.2.1 ++
    bytesBE 4 h.2.2.2.2

/-- The standard base64 alphabet. -/
def b64char (n : Nat) : Char :=
  "ABCDEFGHIJKLMNOPQRSTUVWXYZabcdefghijklmnopqrstuvwxyz0123456789+/".data.getD n '='

/-- Go `encoding/base64` `StdEncoding` (with `=` padding). -/
def b64encode : List Nat → List Char
  | b0 :: b1 :: b2 :: rest =>
    b64char (b0 >>> 2) :: b64char (((b0 &&& 3) <<< 4) ||| (b1 >>> 4)) ::
    b64char (((b1 &&& 15) <<< 2) ||| (b2 >>> 6)) :: b64char (b2 &&& 63) ::
    b64encode rest
  | [b0, b1] =>
    [b64char (b0 >>> 2), b64char (((b0 &&& 3) <<< 4) ||| (b1 >>> 4)),
     b64char ((b1 &&& 15) <<< 2), '=']
  | [b0] => [b64char (b0 >>> 2), b64char ((b0 &&& 3) <<< 4), '=', '=']
  | [] => []

/-- UTF-8/ASCII bytes of a string (every string involved is ASCII, where Go's
byte view and the character view coincide). -/
def strBytes (s : String) : List Nat := s.data.map Char.toNat

/-- The fixed GUID of `calculateAcceptKey`. -/
def websocketGUID : String := "258EAFA5-E914-47DA-95CA-C5AB0DC85B11"

/-- Go `calculateAcceptKey`: `Base64(SHA-1(key + GUID))`. -/
def calculateAcceptKey (key : String) : String :=
  String.mk (b64encode (sha1sum (strBytes (key ++ websocketGUID))))

/-- Go `WebSocket.WriteMessage`: FIN+text-opcode byte `0x81`, then the length
encoding (`byte(...)` truncates mod 256), then the payload. -/
def wsWriteFrame (data : List Nat) : List Nat :=
  if data.length < 126 then 129 :: data.length :: data
  else 129 :: 126 :: ((data.length >>> 8) % 256) :: (data.length &&& 255) :: data

/-- A fresh GET request context for `/`. -/
def demoCtx : Ctx := newContext "GET" 0 "" "/"

/-- A handler that sends a plain-text response and returns normally. -/
def demoOkHandler : Ctx → Except (Ctx × String) Ctx :=
  fun c => Except.ok (c.StringResp "hello")

/-- A middleware that panics immediately (context untouched). -/
def panicMw : Ctx → Except (Ctx × String) (Ctx × Bool) :=
  fun c => Except.error (c, "middleware panic")

/-- A handler that panics before writing anything. -/
def panicHandler : Ctx → Except (Ctx × String) Ctx :=
  fun c => Except.error (c, "handler panic")

/-- A POST request context for `/x` carrying a 5-byte body. -/
def postCtx : Ctx := newContext "POST" 5 "hello" "/x"

/-- A fresh GET request context (rate-limiter scenarios). -/
def getCtx : Ctx := newContext "GET" 0 "" "/"

theorem matchSegs_eq_some_iff (pattern : List Segment) :
    ∀ (segs : List String) (acc ps : List (String × String)),
      matchSegs pattern segs acc = some ps ↔
        List.Forall₂ segMatches pattern segs ∧ ps = bindAux pattern segs acc := by
  induction pattern with
  | nil =>
    intro segs acc ps
    cases segs with
    | nil => simp [matchSegs, bindAux, eq_comm]
    | cons s ss => simp [matchSegs]
  | cons sg pat ih =>
    intro segs acc ps
    cases segs with
    | nil => cases sg <;> simp [matchSegs]
    | cons s ss =>
      cases sg with
      | Param name =>
        simp [matchSegs, bindAux, ih, segMatches]
      | Literal v =>
        by_cases hv : v = s
        · simp [matchSegs, bindAux, hv, ih, segMatches]
        · simp [matchSegs, bindAux, hv, segMatches]

theorem matchPat_eq_some_iff (pattern : List Segment) (segs : List String)
    (ps : List (String × String)) :
    matchPat pattern segs = some ps ↔
      List.Forall₂ segMatches pattern segs ∧ ps = bindParams pattern segs := by
  unfold matchPat bindParams
  by_cases hl : pattern.length = segs.length
  · simp [hl, matchSegs_eq_some_iff]
  · simp only [hl, if_false]
    constructor
    · intro h; cases h
    · rintro ⟨hf, _⟩
      exact absurd hf.length_eq hl

theorem matchPat_isSome_iff (pattern : List Segment) (segs : List String) :
    (matchPat pattern segs).isSome ↔ List.Forall₂ segMatches pattern segs := by
  constructor
  · intro h
    obtain ⟨ps, hps⟩ := Option.isSome_iff_exists.mp h
    exact ((matchPat_eq_some_iff pattern segs ps).mp hps).1
  · intro h
    have := (matchPat_eq_some_iff pattern segs (bindParams pattern segs)).mpr
      ⟨h, rfl⟩
    simp [this]

theorem findRoute_eq_some_iff {α : Type _} (routes : List (Route α))
    (method : String) (segs : List String) (h : α)
    (ps : List (String × String)) :
    findRoute routes method segs = some (h, ps) ↔
      ∃ pre rt post, routes = pre ++ rt :: post ∧
        routeMatches rt method segs ∧
        (∀ rt0 ∈ pre, ¬ routeMatches rt0 method segs) ∧
        h = rt.Handler ∧ ps = bindParams rt.Pattern segs := by
  induction routes with
  | nil =>
    constructor
    · intro hc
      simp [findRoute] at hc
    · rintro ⟨pre, rt, post, habs, -⟩
      have hmem : rt ∈ ([] : List (Route α)) := by
        rw [habs]
        exact List.mem_append_right pre (List.mem_cons_self rt post)
      simp at hmem
  | cons rt0 rest ih =>
    constructor
    · intro hfind
      unfold findRoute at hfind
      by_cases hm : rt0.Method = method
      · simp only [hm, if_true] at hfind
        rcases hmp : matchPat rt0.Pattern segs with _ | params
        · rw [hmp] at hfind
          obtain ⟨pre, rt, post, hsplit, hmat, hpre, hh, hps⟩ := ih.mp hfind
          refine ⟨rt0 :: pre, rt, post, by simp [hsplit], hmat, ?_, hh, hps⟩
          intro rt1 hrt1
          rcases List.mem_cons.mp hrt1 with h1 | h1
          · subst h1
            intro hc
            have : (matchPat rt1.Pattern segs).isSome :=
              (matchPat_isSome_iff _ _).mpr hc.2
            rw [hmp] at this
            simp at this
          · exact hpre rt1 h1
        · rw [hmp] at hfind
          obtain ⟨hmat, hbind⟩ := (matchPat_eq_some_iff _ _ _).mp hmp
          have hinj : h = rt0.Handler ∧ ps = params := by
            have := hfind
            simp only [Option.some.injEq, Prod.mk.injEq] at this
            exact ⟨this.1.symm, this.2.symm⟩
          exact ⟨[], rt0, rest, rfl, ⟨hm, hmat⟩, by simp, hinj.1,
            by rw [hinj.2, hbind]⟩
      · simp only [hm, if_false] at hfind
        obtain ⟨pre, rt, post, hsplit, hmat, hpre, hh, hps⟩ := ih.mp hfind
        refine ⟨rt0 :: pre, rt, post, by simp [hsplit], hmat, ?_, hh, hps⟩
        intro rt1 hrt1
        rcases List.mem_cons.mp hrt1 with h1 | h1
        · subst h1; exact fun hc => hm hc.1
        · exact hpre rt1 h1
    · rintro ⟨pre, rt, post, hsplit, hmat, hpre, hh, hps⟩
      cases pre with
      | nil =>
        simp only [List.nil_append] at hsplit
        obtain ⟨rfl, rfl⟩ : rt0 = rt ∧ rest = post := by
          have h1 := congrArg List.head? hsplit
          have h2 := congrArg List.tail hsplit
          simp at h1 h2
          exact ⟨h1, h2⟩
        unfold findRoute
        simp only [hmat.1, if_true]
        have : matchPat rt0.Pattern segs = some (bindParams rt0.Pattern segs) :=
          (matchPat_eq_some_iff _ _ _).mpr ⟨hmat.2, rfl⟩
        rw [this, hh, hps]
      | cons rt1 pre1 =>
        simp only [List.cons_append, List.cons.injEq] at hsplit
        obtain ⟨hrt01, hrest⟩ := hsplit
        have hnot : ¬ routeMatches rt0 method segs := by
          rw [hrt01]
          exact hpre rt1 (List.mem_cons_self rt1 pre1)
        have htail : findRoute rest method segs = some (h, ps) := by
          refine ih.mpr ⟨pre1, rt, post, hrest, hmat, ?_, hh, hps⟩
          exact fun rt2 h2 => hpre rt2 (List.mem_cons_of_mem rt1 h2)
        unfold findRoute
        by_cases hm : rt0.Method = method
        · rcases hmp : matchPat rt0.Pattern segs with _ | params
          · simp [hm, hmp, htail]
          · exact absurd ⟨hm, ((matchPat_eq_some_iff _ _ _).mp hmp).1⟩ hnot
        · simp [hm, htail]

theorem findRoute_eq_none_iff {α : Type _} (routes : List (Route α))
    (method : String) (segs : List String) :
    findRoute routes method segs = none ↔
      ∀ rt ∈ routes, ¬ routeMatches rt method segs := by
  induction routes with
  | nil => simp [findRoute]
  | cons rt0 rest ih =>
    unfold findRoute
    by_cases hm : rt0.Method = method
    · rcases hmp : matchPat rt0.Pattern segs with _ | params
      · simp only [hm, if_true, hmp, ih, List.mem_cons]
        constructor
        · intro hall
          rintro rt (rfl | hmem)
          · rintro ⟨-, hf⟩
            have := (matchPat_isSome_iff rt.Pattern segs).mpr hf
            rw [hmp] at this
            simp at this
          · exact hall rt hmem
        · intro hall rt hmem
          exact hall rt (Or.inr hmem)
      · simp only [hm, if_true, hmp]
        constructor
        · intro hc; cases hc
        · intro hall
          exact absurd ⟨hm, ((matchPat_eq_some_iff _ _ _).mp hmp).1⟩
            (hall rt0 (List.mem_cons_self rt0 rest))
    · simp only [hm, if_false, ih, List.mem_cons]
      constructor
      · intro hall
        rintro rt (rfl | hmem)
        · exact fun hc => hm hc.1
        · exact hall rt hmem
      · intro hall rt hmem
        exact hall rt (Or.inr hmem)

theorem mkRouter_routes {α : Type _} (regs : List (String × String × α)) :
    (mkRouter regs).routes =
      regs.map (fun t => ⟨t.1, t.2.1, t.2.2, compilePattern t.2.1⟩) := by
  have haux : ∀ (l : List (String × String × α)) (r : Router α),
      (l.foldl (fun r t => r.Add t.1 t.2.1 t.2.2) r).routes =
        r.routes ++ l.map (fun t => ⟨t.1, t.2.1, t.2.2, compilePattern t.2.1⟩) := by
    intro l
    induction l with
    | nil => intro r; simp
    | cons t rest ih =>
      intro r
      rw [List.foldl_cons, ih]
      simp [Router.Add]
  simpa using haux regs (NewRouter α)

theorem forall₂_segOfStr (segs : List String) :
    List.Forall₂ segMatches (segs.map segOfStr) segs := by
  induction segs with
  | nil => exact List.Forall₂.nil
  | cons s rest ih =>
    refine List.Forall₂.cons ?_ ih
    unfold segOfStr
    by_cases hc : s.data.head? = some ':'
    · rw [if_pos hc]
      exact trivial
    · rw [if_neg hc]
      exact rfl

/-- Claim C1: for every router built by `Add` registrations and every request,
`Match` scans routes in registration order and returns the handler and
bindings of the first route whose method equals the request method exactly,
whose segment count equals the path segment count, whose literal segments
equal the corresponding path segments, and whose parameter segments bind their
names to the corresponding path segment text verbatim; `none` (= `(nil, nil)`)
when nothing matches; with two identical `(method, path)` registrations the
first one registered wins. -/
theorem router_match_first_registered_route (α : Type) (r : Router α)
    (method path : String) :
    (∀ h ps, r.Match method path = some (h, ps) ↔
      ∃ pre rt post, r.routes = pre ++ rt :: post ∧
        routeMatches rt method (splitPath path) ∧
        (∀ rt0 ∈ pre, ¬ routeMatches rt0 method (splitPath path)) ∧
        h = rt.Handler ∧ ps = bindParams rt.Pattern (splitPath path)) ∧
    (r.Match method path = none ↔
      ∀ rt ∈ r.routes, ¬ routeMatches rt method (splitPath path)) ∧
    (∀ (h1 h2 : α) (regs : List (String × String × α)),
      (mkRouter ((method, path, h1) :: (method, path, h2) :: regs)).Match
          method path =
        some (h1, bindParams (compilePattern path) (splitPath path))) := by
  refine ⟨?_, ?_, ?_⟩
  · intro h ps
    exact findRoute_eq_some_iff r.routes method (splitPath path) h ps
  · exact findRoute_eq_none_iff r.routes method (splitPath path)
  · intro h1 h2 regs
    show findRoute _ method (splitPath path) = _
    rw [mkRouter_routes]
    simp only [List.map_cons]
    unfold findRoute
    have hmp : matchPat (compilePattern path) (splitPath path) =
        some (bindParams (compilePattern path) (splitPath path)) :=
      (matchPat_eq_some_iff _ _ _).mpr ⟨forall₂_segOfStr (splitPath path), rfl⟩
    simp [hmp]

theorem router_match_first_registered_route_witness :
    (mkRouter [("GET", "/users/:id", (1 : Nat)), ("GET", "/users/:id", 2)]).Match
        "GET" "/users/:id" =
      some (1, bindParams (compilePattern "/users/:id") (splitPath "/users/:id")) ∧
    bindParams (compilePattern "/users/:id") (splitPath "/users/:id") =
      [("id", ":id")] :=
  ⟨(router_match_first_registered_route Nat (NewRouter Nat) "GET"
      "/users/:id").2.2 1 2 [], by decide⟩

/-- Claim C5: `compilePattern` trims leading/trailing slashes, splits on `'/'`,
and produces exactly one pattern segment per path segment: a piece beginning
with `':'` becomes a `Param` named by the remainder, every other piece becomes
a `Literal` with the exact text, and the root template `"/"` compiles to a
single empty literal segment. -/
theorem compile_pattern_segments (path : String) :
    (compilePattern path).length = (splitPath path).length ∧
    (∀ (i : Nat) (seg : String) (rest : List Char),
      (splitPath path)[i]? = some seg → seg.data = ':' :: rest →
      (compilePattern path)[i]? = some (Segment.Param (String.mk rest))) ∧
    (∀ (i : Nat) (seg : String), (splitPath path)[i]? = some seg →
      (∀ rest, seg.data ≠ ':' :: rest) →
      (compilePattern path)[i]? = some (Segment.Literal seg)) ∧
    compilePattern "/" = [Segment.Literal ""] := by
  refine ⟨by simp [compilePattern], ?_, ?_, by decide⟩
  · intro i seg rest hget hdata
    unfold compilePattern
    rw [List.getElem?_map, hget]
    have hhead : seg.data.head? = some ':' := by rw [hdata]; rfl
    have htail : seg.data.tail = rest := by rw [hdata]; rfl
    simp [segOfStr, hhead, htail]
  · intro i seg hget hnot
    unfold compilePattern
    rw [List.getElem?_map, hget]
    have hhead : ¬ seg.data.head? = some ':' := by
      intro hc
      rcases hd : seg.data with _ | ⟨c, t⟩
      · rw [hd] at hc; simp at hc
      · rw [hd] at hc
        simp only [List.head?_cons, Option.some.injEq] at hc
        exact hnot t (by rw [hd, hc])
    simp [segOfStr, hhead]

theorem compile_pattern_segments_witness :
    (splitPath "/users/:id")[1]? = some ":id" ∧
    (compilePattern "/users/:id")[1]? = some (Segment.Param "id") :=
  ⟨by decide,
    (compile_pattern_segments "/users/:id").2.1 1 ":id" "id".data (by decide)
      (by decide)⟩

theorem lookupA_setA {α : Type _} (h : List (String × α)) (k : String) (v : α)
    (key : String) :
    lookupA (setA h k v) key = if k = key then some v else lookupA h key := by
  induction h with
  | nil =>
    by_cases hk : k = key <;> simp [setA, lookupA, hk]
  | cons p rest ih =>
    obtain ⟨k0, v0⟩ := p
    by_cases hk0 : k0 = k
    · subst hk0
      by_cases hkey : k0 = key <;> simp [setA, lookupA, hkey]
    · by_cases hkey : k0 = key
      · subst hkey
        have hne : ¬ k = k0 := fun hc => hk0 hc.symm
        simp [setA, lookupA, hk0, hne]
      · simp [setA, lookupA, hk0, hkey, ih]

theorem lookupA_setA_self {α : Type _} (h : List (String × α)) (k : String)
    (v : α) : lookupA (setA h k v) k = some v := by
  simp [lookupA_setA]

/-- Claim C6: `Session.Set` followed by `Session.Get` on the same key returns
the identical value, and `GetSession` with an absent/empty cookie (and a fresh
token not in the table) or with a previously unseen token yields a fresh empty
session bag, whose `Get` is `none` (= Go `nil`) for every key. -/
theorem session_roundtrip (α : Type) :
    (∀ (s : Session α) (key : String) (value : α),
      (s.Set key value).Get key = some value) ∧
    (∀ (sm : SessionManager α) (cookie : Option String) (freshID : String),
      cookie = none ∨ cookie = some "" →
      lookupA sm.sessions freshID = none →
      ∀ key, ((GetSession sm cookie freshID).2).Get key = none) ∧
    (∀ (sm : SessionManager α) (tok freshID : String), tok ≠ "" →
      lookupA sm.sessions tok = none →
      ∀ key, ((GetSession sm (some tok) freshID).2).Get key = none) := by
  refine ⟨?_, ?_, ?_⟩
  · intro s key value
    simp [Session.Set, Session.Get, lookupA_setA_self]
  · intro sm cookie freshID hc hlook key
    rcases hc with rfl | rfl <;>
      simp [GetSession, hlook, Session.Get, lookupA]
  · intro sm tok freshID htok hlook key
    simp [GetSession, htok, hlook, Session.Get, lookupA]

theorem session_roundtrip_witness :
    (Session.Set (⟨"sid", []⟩ : Session String) "user" "alice").Get "user" =
      some "alice" ∧
    ((GetSession (⟨[]⟩ : SessionManager String) none "tok").2).Get "user" =
      none :=
  ⟨(session_roundtrip String).1 ⟨"sid", []⟩ "user" "alice",
    (session_roundtrip String).2.1 ⟨[]⟩ none "tok" (Or.inl rfl) rfl "user"⟩

set_option maxRecDepth 100000 in
/-- Claim C7: the handshake accept value is `Base64(SHA-1(key ++ GUID))` with
the fixed GUID `258EAFA5-E914-47DA-95CA-C5AB0DC85B11`, and on the RFC 6455
sample key it equals the canonical test vector. -/
theorem calculate_accept_key_rfc6455 (key : String) :
    calculateAcceptKey key =
      String.mk (b64encode (sha1sum (strBytes (key ++ websocketGUID)))) ∧
    calculateAcceptKey "dGhlIHNhbXBsZSBub25jZQ==" =
      "s3pPLMBiTxaQ9kYGzzhZRbK+xOo=" :=
  ⟨rfl, by decide⟩

/-- Claim C8: `Context.JSON` is dual-mode, selected by the request: for GET or
a bodyless request it serialises its argument as the JSON response (setting
`Content-Type: application/json` and appending to the response body); for a
method with a body the same call decodes the request body into the argument
and writes nothing to the response. -/
theorem json_dual_mode (c : Ctx) (v : String) :
    (c.method = "GET" ∨ c.contentLength = 0 →
      c.JSON v = (c.sendJSON v, none) ∧
      (c.JSON v).1.written = true ∧
      lookupA (c.JSON v).1.headers "Content-Type" = some "application/json" ∧
      (c.JSON v).1.respBody = c.respBody ++ [v]) ∧
    (¬ (c.method = "GET" ∨ c.contentLength = 0) →
      c.JSON v = (c, some c.requestBody)) := by
  constructor
  · intro hmode
    refine ⟨by simp [Ctx.JSON, hmode], ?_, ?_, ?_⟩ <;>
      simp [Ctx.JSON, hmode, Ctx.sendJSON, Ctx.setHeader, lookupA_setA_self]
  · intro hmode
    simp [Ctx.JSON, hmode]

theorem json_dual_mode_witness :
    (newContext "GET" 0 "" "/").JSON "ok" =
      ((newContext "GET" 0 "" "/").sendJSON "ok", none) ∧
    (newContext "POST" 5 "body" "/").JSON "ok" =
      (newContext "POST" 5 "body" "/", some "body") :=
  ⟨((json_dual_mode (newContext "GET" 0 "" "/") "ok").1 (Or.inl rfl)).1,
    (json_dual_mode (newContext "POST" 5 "body" "/") "ok").2 (by decide)⟩

/-- Claim C9: `WriteMessage` emits one unfragmented text frame: first byte
`0x81`; for payloads under 126 bytes the second byte is the length itself; for
lengths in `[126, 65536)` the second byte is the marker 126 followed by the
16-bit big-endian length; the length byte never has the mask bit set and the
payload follows unchanged. -/
theorem ws_write_frame_layout (data : List Nat) :
    (wsWriteFrame data).head? = some 129 ∧
    (∀ b, (wsWriteFrame data)[1]? = some b → b < 128) ∧
    (data.length < 126 → wsWriteFrame data = 129 :: data.length :: data) ∧
    (126 ≤ data.length → data.length < 65536 →
      wsWriteFrame data =
        129 :: 126 :: (data.length / 256) :: (data.length % 256) :: data) := by
  refine ⟨?_, ?_, ?_, ?_⟩
  · by_cases hl : data.length < 126 <;> simp [wsWriteFrame, hl]
  · intro b hb
    by_cases hl : data.length < 126
    · simp [wsWriteFrame, hl] at hb
      omega
    · simp [wsWriteFrame, hl] at hb
      omega
  · intro hl
    simp [wsWriteFrame, hl]
  · intro hl hub
    have hl2 : ¬ data.length < 126 := by omega
    have hshift : (data.length >>> 8) % 256 = data.length / 256 := by
      have h1 : data.length >>> 8 = data.length / 256 := by
        simpa using Nat.shiftRight_eq_div_pow data.length 8
      rw [h1]
      exact Nat.mod_eq_of_lt (Nat.div_lt_of_lt_mul (by omega))
    have hand : data.length &&& 255 = data.length % 256 := by
      simpa using Nat.and_pow_two_sub_one_eq_mod data.length 8
    simp [wsWriteFrame, hl2, hshift, hand]

set_option maxRecDepth 100000 in
theorem ws_write_frame_layout_witness :
    wsWriteFrame [7, 8, 9] = 129 :: 3 :: [7, 8, 9] ∧
    wsWriteFrame (List.replicate 300 1) =
      129 :: 126 :: 1 :: 44 :: List.replicate 300 1 := by
  constructor
  · exact (ws_write_frame_layout [7, 8, 9]).2.2.1 (by decide)
  · have h := (ws_write_frame_layout (List.replicate 300 1)).2.2.2
      (by simp) (by simp)
    simpa using h

theorem applyOp_fields (c : Ctx) (op : CtxOp) :
    (applyOp c op).method = c.method ∧
    (applyOp c op).contentLength = c.contentLength ∧
    (applyOp c op).written =
      (c.written || isSender c.method c.contentLength op) := by
  cases op with
  | json v =>
    by_cases hm : c.method = "GET" ∨ c.contentLength = 0 <;>
      simp [applyOp, Ctx.JSON, Ctx.sendJSON, Ctx.setHeader, isSender, hm]
  | status n => simp [applyOp, Ctx.Status, isSender]
  | header k v => simp [applyOp, Ctx.setHeader, isSender]
  | cookie k v => simp [applyOp, Ctx.setCookie, isSender]
  | setData k v => simp [applyOp, Ctx.setData, isSender]
  | text v => simp [applyOp, Ctx.StringResp, Ctx.setHeader, isSender]
  | html v => simp [applyOp, Ctx.HTML, Ctx.setHeader, isSender]
  | render v => simp [applyOp, Ctx.Render, Ctx.setHeader, isSender]
  | file v => simp [applyOp, Ctx.File, isSender]
  | redirect v => simp [applyOp, Ctx.Redirect, isSender]

theorem applyOps_fields (ops : List CtxOp) : ∀ c : Ctx,
    (applyOps ops c).method = c.method ∧
    (applyOps ops c).contentLength = c.contentLength ∧
    (applyOps ops c).written =
      (c.written || ops.any (isSender c.method c.contentLength)) := by
  induction ops with
  | nil => intro c; simp [applyOps]
  | cons op rest ih =>
    intro c
    have hstep : applyOps (op :: rest) c = applyOps rest (applyOp c op) := rfl
    obtain ⟨hm, hcl, hw⟩ := applyOp_fields c op
    obtain ⟨ihm, ihcl, ihw⟩ := ih (applyOp c op)
    rw [hstep]
    refine ⟨by rw [ihm, hm], by rw [ihcl, hcl], ?_⟩
    rw [ihw, hm, hcl, hw, List.any_cons, Bool.or_assoc]

/-- Claim C10 (implicit invariant): a fresh context's `written` flag is
`false`, and after running any sequence of context operations the flag is
`true` exactly when some response-sending operation (`sendJSON`/`JSON` in
response mode, `String`, `HTML`, `Render`, `File`, `Redirect`) ran — no other
context operation sets it, so the recovery wrapper's `written` check tells
whether a response-sending operation has run. -/
theorem written_flag_invariant (method : String) (contentLength : Int)
    (requestBody path : String) (ops : List CtxOp) :
    (newContext method contentLength requestBody path).written = false ∧
    ((applyOps ops (newContext method contentLength requestBody path)).written
        = true ↔
      ∃ op ∈ ops, isSender method contentLength op = true) := by
  refine ⟨rfl, ?_⟩
  obtain ⟨-, -, hw⟩ :=
    applyOps_fields ops (newContext method contentLength requestBody path)
  rw [hw]
  simp [newContext, List.any_eq_true]

theorem written_flag_invariant_witness :
    (newContext "GET" 0 "" "/").written = false ∧
    (applyOps [CtxOp.status 404, CtxOp.json "x"]
        (newContext "GET" 0 "" "/")).written = true :=
  ⟨(written_flag_invariant "GET" 0 "" "/" []).1,
    (written_flag_invariant "GET" 0 "" "/"
        [CtxOp.status 404, CtxOp.json "x"]).2.mpr
      ⟨CtxOp.json "x", by decide, by decide⟩⟩

theorem map_ext_on {α β : Type _} (l : List α) (f g : α → β)
    (h : ∀ a ∈ l, f a = g a) : l.map f = l.map g := by
  induction l with
  | nil => rfl
  | cons a rest ih =>
    simp only [List.map_cons, h a (List.mem_cons_self a rest)]
    rw [ih fun b hb => h b (List.mem_cons_of_mem a hb)]

theorem idsFrom_succ (k n : Nat) : idsFrom k (n + 1) = k :: idsFrom (k + 1) n := by
  unfold idsFrom
  rw [List.range_succ_eq_map, List.map_cons, List.map_map]
  refine congrArg₂ List.cons (by simp) ?_
  refine map_ext_on _ _ _ fun a _ => ?_
  simp only [Function.comp_apply]
  omega

theorem idsFrom_one (k : Nat) : idsFrom k 1 = [k] := by
  have h : List.range 1 = [0] := rfl
  simp [idsFrom, h]

theorem runMws_trace (σ : Type _) (ms : List (σ → σ × Bool)) :
    ∀ (k : Nat) (s : σ) (log : List Nat),
      runMws (traceMws k ms) (s, log) =
        match firstFalse ms s with
        | none => Except.ok ((chainMws ms s, log ++ idsFrom k ms.length), true)
        | some j =>
          Except.ok ((chainMws (ms.take (j + 1)) s, log ++ idsFrom k (j + 1)),
            false) := by
  induction ms with
  | nil =>
    intro k s log
    simp [traceMws, runMws, firstFalse, chainMws, idsFrom]
  | cons f fs ih =>
    intro k s log
    by_cases hc : (f s).2 = true
    · rcases hff : firstFalse fs (f s).1 with _ | j
      · have h1 := ih (k + 1) (f s).1 (log ++ [k])
        rw [hff] at h1
        simp only [traceMws, runMws, hc, if_true, h1, firstFalse, hff]
        simp [chainMws, idsFrom_succ]
      · have h1 := ih (k + 1) (f s).1 (log ++ [k])
        rw [hff] at h1
        simp only [traceMws, runMws, hc, if_true, h1, firstFalse, hff]
        simp [chainMws, idsFrom_succ]
    · have hc2 : (f s).2 = false := by
        cases h2 : (f s).2
        · rfl
        · exact absurd h2 hc
      simp only [traceMws, runMws, hc2, Bool.false_eq_true, if_false, firstFalse]
      simp [chainMws, idsFrom_one]

theorem runMws_pure (σ : Type _) (ms : List (σ → σ × Bool)) : ∀ s : σ,
    runMws (ms.map pureMw) s =
      match firstFalse ms s with
      | none => Except.ok (chainMws ms s, true)
      | some j => Except.ok (chainMws (ms.take (j + 1)) s, false) := by
  induction ms with
  | nil =>
    intro s
    simp [runMws, firstFalse, chainMws]
  | cons f fs ih =>
    intro s
    by_cases hc : (f s).2 = true
    · rcases hff : firstFalse fs (f s).1 with _ | j <;>
      · have h1 := ih (f s).1
        rw [hff] at h1
        simp only [List.map_cons, runMws, pureMw, hc, if_true, h1, firstFalse,
          hff]
        simp [chainMws]
    · have hc2 : (f s).2 = false := by
        cases h2 : (f s).2
        · rfl
        · exact absurd h2 hc
      simp only [List.map_cons, runMws, pureMw, hc2, Bool.false_eq_true,
        if_false, firstFalse]
      simp [chainMws]

/-- Claim C2: middleware run strictly in registration order, each exactly
once, before the matched handler (the instrumented chain's log is exactly the
indices `0, 1, …` up to and including the first middleware returning `false`);
a `false` stops all later middleware and the handler (the result is the state
after the stopping middleware, independent of the router); if all return
`true`, the matched handler's single application decides the outcome. -/
theorem middleware_chain_order (σ : Type) (tms : List (σ → σ × Bool)) (ts : σ)
    (ms : List (Ctx → Ctx × Bool))
    (router : Router (Ctx → Except (Ctx × String) Ctx)) (c : Ctx) :
    (runMws (traceMws 0 tms) (ts, []) =
      match firstFalse tms ts with
      | none => Except.ok ((chainMws tms ts, idsFrom 0 tms.length), true)
      | some j =>
        Except.ok ((chainMws (tms.take (j + 1)) ts, idsFrom 0 (j + 1)),
          false)) ∧
    (∀ j, firstFalse ms c = some j →
      serveHTTP (ms.map pureMw) router c =
        Except.ok (chainMws (ms.take (j + 1)) c)) ∧
    (∀ h params c2, firstFalse ms c = none →
      router.Match c.method c.path = some (h, params) →
      h { chainMws ms c with params := params } = Except.ok c2 →
      serveHTTP (ms.map pureMw) router c = Except.ok c2) := by
  refine ⟨?_, ?_, ?_⟩
  · have h1 := runMws_trace σ tms 0 ts []
    rcases hff : firstFalse tms ts with _ | j <;>
    · rw [hff] at h1
      simpa using h1
  · intro j hj
    have hp := runMws_pure Ctx ms c
    rw [hj] at hp
    simp [serveHTTP, hp]
  · intro h params c2 hnone hmatch hhandler
    have hp := runMws_pure Ctx ms c
    rw [hnone] at hp
    simp [serveHTTP, hp, hmatch, hhandler]

theorem middleware_chain_order_witness :
    serveHTTP (([] : List (Ctx → Ctx × Bool)).map pureMw)
        (mkRouter [("GET", "/", demoOkHandler)]) demoCtx =
      Except.ok (demoCtx.StringResp "hello") :=
  (middleware_chain_order Nat [] 0 [] (mkRouter [("GET", "/", demoOkHandler)])
      demoCtx).2.2 demoOkHandler [] (demoCtx.StringResp "hello") rfl rfl rfl

/-- Claim C3, evaluated at the failing inputs: a panic raised in a middleware
escapes `serveHTTP` un-intercepted (the `recover` is installed only around the
handler call), and for a handler panic on a body-carrying POST request the
recovery path's `Status(500).JSON` call runs in request-decode mode, so no 500
JSON body is written and the response stays unwritten — only the `statusCode`
field is set. -/
theorem recovery_gap_evaluation :
    serveHTTP [panicMw] (mkRouter [("POST", "/x", panicHandler)]) postCtx =
      Except.error (postCtx, "middleware panic") ∧
    serveHTTP [] (mkRouter [("POST", "/x", panicHandler)]) postCtx =
      Except.ok (postCtx.Status 500) ∧
    (postCtx.Status 500).written = false ∧
    (postCtx.Status 500).respBody = [] :=
  ⟨rfl, rfl, rfl, rfl⟩

theorem range_map_succ {β : Type _} (f : Nat → β) (n : Nat) :
    (List.range (n + 1)).map f = f 0 :: (List.range n).map (fun i => f (i + 1)) := by
  rw [List.range_succ_eq_map, List.map_cons, List.map_map]
  exact congrArg₂ List.cons rfl (map_ext_on _ _ _ fun a _ => rfl)

theorem rateLimitStep_eval (n : Nat) (clients : List (String × RLClient))
    (ip : String) (now : Nat) (c : Ctx) (k r : Nat)
    (hlook : lookupA (clients.filter (fun e => decide (now ≤ e.2.reset))) ip =
      some ⟨k, r⟩) :
    rateLimitStep n clients ip now c =
      if n ≤ k then
        (clients.filter (fun e => decide (now ≤ e.2.reset)),
         ((c.Status 429).JSON jsonErrRate).1, false)
      else
        (setA (clients.filter (fun e => decide (now ≤ e.2.reset))) ip
          ⟨k + 1, r⟩,
         ((c.setHeader "X-RateLimit-Limit" (toString n)).setHeader
            "X-RateLimit-Remaining" (toString (n - (k + 1)))).setHeader
            "X-RateLimit-Reset" (toString r),
         true) := by
  simp only [rateLimitStep, hlook]

theorem rateLimitStep_fresh (n : Nat) (clients : List (String × RLClient))
    (ip : String) (now : Nat) (c : Ctx)
    (hlook : lookupA (clients.filter (fun e => decide (now ≤ e.2.reset))) ip =
      none) :
    rateLimitStep n clients ip now c =
      if n ≤ 0 then
        (clients.filter (fun e => decide (now ≤ e.2.reset)) ++
          [(ip, ⟨0, now + 60⟩)],
         ((c.Status 429).JSON jsonErrRate).1, false)
      else
        (setA (clients.filter (fun e => decide (now ≤ e.2.reset)) ++
            [(ip, ⟨0, now + 60⟩)]) ip ⟨1, now + 60⟩,
         ((c.setHeader "X-RateLimit-Limit" (toString n)).setHeader
            "X-RateLimit-Remaining" (toString (n - 1))).setHeader
            "X-RateLimit-Reset" (toString (now + 60)),
         true) := by
  simp only [rateLimitStep, hlook]

theorem rateLimitRun_inv (n : Nat) (ip : String) (c0 : Ctx) :
    ∀ (ts : List Nat) (k r : Nat), (∀ t ∈ ts, t ≤ r) →
      (rateLimitRun n [(ip, ⟨k, r⟩)] ip c0 ts).2 =
        (List.range ts.length).map (fun i => decide (k + i < n)) := by
  intro ts
  induction ts with
  | nil => intro k r _; rfl
  | cons t ts ih =>
    intro k r hall
    have ht : t ≤ r := hall t (List.mem_cons_self t ts)
    have hlook : lookupA
        (([(ip, (⟨k, r⟩ : RLClient))]).filter (fun e => decide (t ≤ e.2.reset)))
        ip = some ⟨k, r⟩ := by
      simp [List.filter, ht, lookupA]
    have heval := rateLimitStep_eval n [(ip, ⟨k, r⟩)] ip t c0 k r hlook
    have hallts : ∀ u ∈ ts, u ≤ r := fun u hu => hall u (List.mem_cons_of_mem t hu)
    rw [show (List.range (t :: ts).length).map (fun i => decide (k + i < n)) =
        decide (k + 0 < n) ::
          (List.range ts.length).map (fun i => decide (k + (i + 1) < n)) from
      range_map_succ (fun i => decide (k + i < n)) ts.length]
    by_cases hk : n ≤ k
    · rw [if_pos hk] at heval
      have hfilter : ([(ip, (⟨k, r⟩ : RLClient))]).filter
          (fun e => decide (t ≤ e.2.reset)) = [(ip, ⟨k, r⟩)] := by
        simp [List.filter, ht]
      have hrun : rateLimitRun n [(ip, ⟨k, r⟩)] ip c0 (t :: ts) =
          ((rateLimitRun n [(ip, ⟨k, r⟩)] ip c0 ts).1,
            false :: (rateLimitRun n [(ip, ⟨k, r⟩)] ip c0 ts).2) := by
        simp only [rateLimitRun, heval, hfilter]
      rw [hrun]
      have hhead : decide (k + 0 < n) = false := by
        apply decide_eq_false
        omega
      rw [hhead, ih k r hallts]
      refine congrArg₂ List.cons rfl ?_
      have h1 : (List.range ts.length).map (fun i => decide (k + i < n)) =
          (List.range ts.length).map (fun _ => false) :=
        map_ext_on _ _ _ fun a _ => decide_eq_false (by omega)
      have h2 : (List.range ts.length).map (fun i => decide (k + (i + 1) < n)) =
          (List.range ts.length).map (fun _ => false) :=
        map_ext_on _ _ _ fun a _ => decide_eq_false (by omega)
      rw [h1, h2]
    · rw [if_neg hk] at heval
      have hset : setA (([(ip, (⟨k, r⟩ : RLClient))]).filter
          (fun e => decide (t ≤ e.2.reset))) ip ⟨k + 1, r⟩ =
          [(ip, ⟨k + 1, r⟩)] := by
        simp [List.filter, ht, setA]
      have hrun : rateLimitRun n [(ip, ⟨k, r⟩)] ip c0 (t :: ts) =
          ((rateLimitRun n [(ip, ⟨k + 1, r⟩)] ip c0 ts).1,
            true :: (rateLimitRun n [(ip, ⟨k + 1, r⟩)] ip c0 ts).2) := by
        simp only [rateLimitRun, heval, hset]
      rw [hrun]
      have hhead : decide (k + 0 < n) = true := by
        apply decide_eq_true
        omega
      rw [hhead, ih (k + 1) r hallts]
      refine congrArg₂ List.cons rfl ?_
      refine map_ext_on _ _ _ fun a _ => ?_
      rw [show k + (a + 1) = k + 1 + a from by omega]

/-- Claim C4 (amended): with `RateLimit(N)` installed, for a fixed client IP a
request within the window whose counter is below `N` succeeds (returns `true`)
with the three `X-RateLimit-*` headers set and the counter incremented; once
the counter has reached `N`, a request in the same window is rejected with
status 429 and the rate-limit error body (written when the request is GET or
bodyless) but — unlike the claim — with **no** `X-RateLimit-*` headers;
starting fresh, a run of requests inside one window yields `true` for exactly
the first `N` and `false` afterwards; once the window has rolled over
(`now > reset`) the entry is dropped, so the counter restarts from zero. -/
theorem rate_limit_window (n : Nat) (clients : List (String × RLClient))
    (ip : String) (now : Nat) (c : Ctx) :
    (∀ k r, lookupA (clients.filter (fun e => decide (now ≤ e.2.reset))) ip =
        some ⟨k, r⟩ → k < n →
      (rateLimitStep n clients ip now c).2.2 = true ∧
      lookupA (rateLimitStep n clients ip now c).1 ip = some ⟨k + 1, r⟩ ∧
      lookupA (rateLimitStep n clients ip now c).2.1.headers
        "X-RateLimit-Limit" = some (toString n) ∧
      lookupA (rateLimitStep n clients ip now c).2.1.headers
        "X-RateLimit-Remaining" = some (toString (n - (k + 1))) ∧
      lookupA (rateLimitStep n clients ip now c).2.1.headers
        "X-RateLimit-Reset" = some (toString r)) ∧
    (∀ k r, lookupA (clients.filter (fun e => decide (now ≤ e.2.reset))) ip =
        some ⟨k, r⟩ → n ≤ k →
      (rateLimitStep n clients ip now c).2.2 = false ∧
      (rateLimitStep n clients ip now c).2.1.statusCode = 429 ∧
      lookupA (rateLimitStep n clients ip now c).2.1.headers
        "X-RateLimit-Limit" = lookupA c.headers "X-RateLimit-Limit" ∧
      lookupA (rateLimitStep n clients ip now c).2.1.headers
        "X-RateLimit-Remaining" = lookupA c.headers "X-RateLimit-Remaining" ∧
      lookupA (rateLimitStep n clients ip now c).2.1.headers
        "X-RateLimit-Reset" = lookupA c.headers "X-RateLimit-Reset" ∧
      (c.method = "GET" ∨ c.contentLength = 0 →
        (rateLimitStep n clients ip now c).2.1.respBody =
          c.respBody ++ [jsonErrRate])) ∧
    (∀ k r, r < now →
      rateLimitStep n [(ip, ⟨k, r⟩)] ip now c = rateLimitStep n [] ip now c) ∧
    (∀ (c0 : Ctx) (t0 : Nat) (ts : List Nat), (∀ t ∈ ts, t ≤ t0 + 60) →
      (rateLimitRun n [] ip c0 (t0 :: ts)).2 =
        (List.range (ts.length + 1)).map (fun i => decide (i < n))) := by
  refine ⟨?_, ?_, ?_, ?_⟩
  · intro k r hlook hk
    have heval := rateLimitStep_eval n clients ip now c k r hlook
    rw [if_neg (by omega)] at heval
    rw [heval]
    refine ⟨rfl, lookupA_setA_self _ _ _, ?_, ?_, ?_⟩ <;>
      simp [Ctx.setHeader, lookupA_setA]
  · intro k r hlook hk
    have heval := rateLimitStep_eval n clients ip now c k r hlook
    rw [if_pos hk] at heval
    rw [heval]
    by_cases hmode : c.method = "GET" ∨ c.contentLength = 0
    · refine ⟨rfl, ?_, ?_, ?_, ?_, ?_⟩ <;>
        simp [Ctx.JSON, hmode, Ctx.sendJSON, Ctx.setHeader, Ctx.Status,
          lookupA_setA]
    · refine ⟨rfl, ?_, ?_, ?_, ?_, ?_⟩ <;>
        simp [Ctx.JSON, hmode, Ctx.Status]
  · intro k r hroll
    have hd : ¬ (now ≤ r) := by omega
    simp [rateLimitStep, hd]
  · intro c0 t0 ts hall
    have hlook : lookupA (([] : List (String × RLClient)).filter
        (fun e => decide (t0 ≤ e.2.reset))) ip = none := rfl
    have heval := rateLimitStep_fresh n [] ip t0 c0 hlook
    rw [show (List.range (ts.length + 1)).map (fun i => decide (i < n)) =
        decide ((0 : Nat) < n) ::
          (List.range ts.length).map (fun i => decide (i + 1 < n)) from
      range_map_succ (fun i => decide (i < n)) ts.length]
    by_cases hn : n ≤ 0
    · rw [if_pos hn] at heval
      have hrun : rateLimitRun n [] ip c0 (t0 :: ts) =
          ((rateLimitRun n [(ip, ⟨0, t0 + 60⟩)] ip c0 ts).1,
            false :: (rateLimitRun n [(ip, ⟨0, t0 + 60⟩)] ip c0 ts).2) := by
        simp only [rateLimitRun, heval, List.filter, List.nil_append]
      rw [hrun]
      have hhead : decide ((0 : Nat) < n) = false := decide_eq_false (by omega)
      rw [hhead, rateLimitRun_inv n ip c0 ts 0 (t0 + 60) hall]
      refine congrArg₂ List.cons rfl ?_
      have h1 : (List.range ts.length).map (fun i => decide (0 + i < n)) =
          (List.range ts.length).map (fun _ => false) :=
        map_ext_on _ _ _ fun a _ => decide_eq_false (by omega)
      have h2 : (List.range ts.length).map (fun i => decide (i + 1 < n)) =
          (List.range ts.length).map (fun _ => false) :=
        map_ext_on _ _ _ fun a _ => decide_eq_false (by omega)
      rw [h1, h2]
    · rw [if_neg hn] at heval
      have hset : setA (([] : List (String × RLClient)).filter
          (fun e => decide (t0 ≤ e.2.reset)) ++ [(ip, ⟨0, t0 + 60⟩)]) ip
          ⟨1, t0 + 60⟩ = [(ip, ⟨1, t0 + 60⟩)] := by
        simp [List.filter, setA]
      have hrun : rateLimitRun n [] ip c0 (t0 :: ts) =
          ((rateLimitRun n [(ip, ⟨1, t0 + 60⟩)] ip c0 ts).1,
            true :: (rateLimitRun n [(ip, ⟨1, t0 + 60⟩)] ip c0 ts).2) := by
        simp only [rateLimitRun, heval, hset]
      rw [hrun]
      have hhead : decide ((0 : Nat) < n) = true := decide_eq_true (by omega)
      rw [hhead, rateLimitRun_inv n ip c0 ts 1 (t0 + 60) hall]
      refine congrArg₂ List.cons rfl ?_
      refine map_ext_on _ _ _ fun a _ => ?_
      rw [show 1 + a = a + 1 from by omega]

theorem rate_limit_window_witness :
    (rateLimitStep 2 [("1.2.3.4", ⟨1, 60⟩)] "1.2.3.4" 10 getCtx).2.2 = true ∧
    lookupA (rateLimitStep 2 [("1.2.3.4", ⟨1, 60⟩)] "1.2.3.4" 10
        getCtx).2.1.headers "X-RateLimit-Limit" = some "2" ∧
    (rateLimitRun 1 [] "1.2.3.4" getCtx [0, 5, 30]).2 =
      [true, false, false] := by
  have hA := (rate_limit_window 2 [("1.2.3.4", ⟨1, 60⟩)] "1.2.3.4" 10
    getCtx).1 1 60 (by decide) (by decide)
  have hD := (rate_limit_window 1 [] "1.2.3.4" 0 getCtx).2.2.2 getCtx 0 [5, 30]
    (by decide)
  exact ⟨hA.1, hA.2.2.1, by simpa using hD⟩

/-- Claim C4, the part the code refutes, evaluated: with `RateLimit(1)`, the
second request from the same IP inside the window is rejected with 429 but
carries none of the `X-RateLimit-*` retry headers (they are set only on the
success path). -/
theorem rate_limit_429_no_headers :
    (rateLimitStep 1 (rateLimitStep 1 [] "1.2.3.4" 0 getCtx).1 "1.2.3.4" 0
        getCtx).2.2 = false ∧
    (rateLimitStep 1 (rateLimitStep 1 [] "1.2.3.4" 0 getCtx).1 "1.2.3.4" 0
        getCtx).2.1.statusCode = 429 ∧
    lookupA (rateLimitStep 1 (rateLimitStep 1 [] "1.2.3.4" 0 getCtx).1
        "1.2.3.4" 0 getCtx).2.1.headers "X-RateLimit-Limit" = none ∧
    lookupA (rateLimitStep 1 (rateLimitStep 1 [] "1.2.3.4" 0 getCtx).1
        "1.2.3.4" 0 getCtx).2.1.headers "X-RateLimit-Remaining" = none ∧
    lookupA (rateLimitStep 1 (rateLimitStep 1 [] "1.2.3.4" 0 getCtx).1
        "1.2.3.4" 0 getCtx).2.1.headers "X-RateLimit-Reset" = none := by
  decide

end SmallAPI
